import Mathlib

/-!
Verification of the uid_reader repository (src/main.rs): a decoder for the
fixed-format 12-byte title-ownership records of a Wii uid.sys file, together
with the title classifier and line formatter.

Bytes are modelled as natural numbers (each byte value below 256); machine
integers are natural numbers with explicit reduction modulo a power of two
where overflow matters.  A Rust panic (an unwrap failure) is modelled as
Option.none.  Rendered text is modelled as List Char.
-/

/-- Big-endian interpretation of a list of byte values, as in
u64::from_be_bytes and u16::from_be_bytes: fold left, shifting by 256. -/
def beNat (bs : List Nat) : Nat :=
  bs.foldl (fun acc b => 256 * acc + b) 0

/-- A decoded record, from struct Entry in src/main.rs: a 64-bit title
identifier and a 16-bit install-slot number (field uid in the source).
The two padding bytes are dropped, as in the source (the padding field is
commented out there). -/
structure Entry where
  title_id : Nat
  uid : Nat
deriving DecidableEq, Repr

/-- Models the impl From<&[u8; 12]> for Entry conversion of src/main.rs
(lines 194-202): bytes 0-7 big-endian become title_id, bytes 8-9 are
ignored, bytes 10-11 big-endian become uid. -/
def Entry.ofChunk (b0 b1 b2 b3 b4 b5 b6 b7 _b8 _b9 b10 b11 : Nat) : Entry :=
  ⟨beNat [b0, b1, b2, b3, b4, b5, b6, b7], beNat [b10, b11]⟩

/-- Models the chunk-decoding pass of get_entries_from_file in src/main.rs
(lines 183-191): the buffer is cut into consecutive 12-byte chunks and each
full chunk is converted to an Entry.  A trailing partial chunk makes the
TryInto conversion fail and the source calls unwrap on it, a panic; the
panic is modelled as none. -/
def get_entries : List Nat → Option (List Entry)
  | [] => some []
  | b0 :: b1 :: b2 :: b3 :: b4 :: b5 :: b6 :: b7 :: b8 :: b9 :: b10 :: b11 :: rest =>
      (get_entries rest).map
        (fun es => Entry.ofChunk b0 b1 b2 b3 b4 b5 b6 b7 b8 b9 b10 b11 :: es)
  | _ => none

/-- Modelled from the spec: the record list the spec promises for a
12-byte-aligned buffer, written directly from the words of the claim:
length/12 records, in buffer order, record i taking bytes 12i..12i+8
big-endian as title_id and bytes 12i+10..12i+12 big-endian as uid. -/
def specDecodedRecords (bytes : List Nat) : List Entry :=
  (List.range (bytes.length / 12)).map (fun i =>
    ⟨beNat ((bytes.drop (12 * i)).take 8),
     beNat (((bytes.drop (12 * i)).drop 10).take 2)⟩)

/-- Modelled from the spec (claim on round-tripping): the synthetic 12-byte
encoding of a pair, 8-byte big-endian title identifier, then two zero
padding bytes, then the 2-byte big-endian slot. -/
def encode12 (tid slot : Nat) : List Nat :=
  [tid / 2 ^ 56 % 256, tid / 2 ^ 48 % 256, tid / 2 ^ 40 % 256, tid / 2 ^ 32 % 256,
   tid / 2 ^ 24 % 256, tid / 2 ^ 16 % 256, tid / 2 ^ 8 % 256, tid % 256,
   0, 0,
   slot / 2 ^ 8 % 256, slot % 256]

/-- Big-endian byte decomposition of a 32-bit value, as u32::to_be_bytes in
src/main.rs line 150. -/
def u32_to_be_bytes (g : Nat) : List Nat :=
  [g / 2 ^ 24 % 256, g / 2 ^ 16 % 256, g / 2 ^ 8 % 256, g % 256]

/-- Rendering of one byte in make_gameid_string (src/main.rs lines 154-162):
the ASCII character when the byte lies in [32, 128), the dot otherwise. -/
def renderByte (b : Nat) : Char :=
  if 32 ≤ b ∧ b < 128 then Char.ofNat b else '.'

/-- Models make_gameid_string of src/main.rs (lines 149-165): the four
big-endian bytes of a 32-bit value, each rendered and pushed in order onto
an initially empty string. -/
def make_gameid_string (gameid : Nat) : List Char :=
  (u32_to_be_bytes gameid).foldl (fun result byte => result ++ [renderByte byte]) []

/-- Models the title_id_prefix match of print_entries in src/main.rs
(lines 100-113): the fixed classification table over the high 32 bits, with
the default arm mapping everything else to the Error label. -/
def categoryLabel (p : Nat) : List Char :=
  if p = 0x00000001 then "SYSTEM ESSENTIAL".toList
  else if p = 0x00000007 then "vWII ESSENTIAL".toList
  else if p = 0x00010000 then "DISC-BASED GAME".toList
  else if p = 0x00010001 then "DOWNLOADED CHANNEL".toList
  else if p = 0x00010002 then "SYSTEM CHANNEL".toList
  else if p = 0x00070002 then "vWII SYSTEM CHANNEL".toList
  else if p = 0x00010004 then "GAME CHANNEL".toList
  else if p = 0x00010005 then "GAME DLC".toList
  else if p = 0x00010008 then "HIDDEN CHANNEL".toList
  else if p = 0x00070008 then "vWII HIDDEN".toList
  else "Error".toList

/-- Uppercase hexadecimal digit of a value below 16. -/
def hexDigit (n : Nat) : Char :=
  if n < 10 then Char.ofNat (48 + n) else Char.ofNat (55 + n)

/-- Models the format specifier {:08X} applied to a u32 in src/main.rs
(lines 118 and 122): eight uppercase hex digits, zero padded. -/
def hex8 (n : Nat) : List Char :=
  [hexDigit (n / 16 ^ 7 % 16), hexDigit (n / 16 ^ 6 % 16),
   hexDigit (n / 16 ^ 5 % 16), hexDigit (n / 16 ^ 4 % 16),
   hexDigit (n / 16 ^ 3 % 16), hexDigit (n / 16 ^ 2 % 16),
   hexDigit (n / 16 % 16), hexDigit (n % 16)]

/-- Fuel-driven accumulator loop for decimal rendering of a natural
number. -/
def natToDecGo : Nat → Nat → List Char → List Char
  | 0, _, acc => acc
  | fuel + 1, n, acc =>
    if n < 10 then Char.ofNat (48 + n) :: acc
    else natToDecGo fuel (n / 10) (Char.ofNat (48 + n % 10) :: acc)

/-- Decimal rendering of a natural number, as the Display format of an
unsigned integer in Rust. -/
def natToDec (n : Nat) : List Char :=
  natToDecGo (n + 1) n []

/-- Models the format specifier {: <19} of src/main.rs line 142: left
aligned, filled on the right with spaces up to width 19. -/
def padRight (s : List Char) (w : Nat) : List Char :=
  s ++ List.replicate (w - s.length) ' '

/-- Models install_num of src/main.rs line 124: the u16 subtraction
entry.uid - 4095.  In a release build u16 subtraction wraps modulo 2^16 (a
debug build would panic on underflow); the wrap is written explicitly. -/
def install_num (uid : Nat) : Nat :=
  (uid + 2 ^ 16 - 4095) % 2 ^ 16

/-- Models the title_human_name match of print_entries in src/main.rs
(lines 126-139).  The optional title database is the lookup capability a
loaded HashMap provides: a function from key to optional value. -/
def title_human_name (title_db : Option (List Char → Option (List Char))) (e : Entry) :
    List Char :=
  match title_db with
  | some db =>
    match db (make_gameid_string (e.title_id % 2 ^ 32)) with
    | some s => " - ".toList ++ s
    | none =>
      if e.title_id % 2 ^ 32 < 255 then
        " - IOS ".toList ++ natToDec (e.title_id % 2 ^ 32)
      else
        " - ????".toList
  | none => []

/-- Models the body of the per-entry loop of print_entries in src/main.rs
(lines 98-146), producing the printed line for one entry: the high 32 bits
of title_id give the raw category hex and, only under the pretty flag, the
category label padded to width 19; the low 32 bits give the game-id hex and
the 4-character code string; uid gives the install number. -/
def format_line (e : Entry) (pretty : Bool)
    (title_db : Option (List Char → Option (List Char))) : List Char :=
  let labelStr := if pretty then categoryLabel (e.title_id / 2 ^ 32 % 2 ^ 32) else []
  let title_id_raw := hex8 (e.title_id / 2 ^ 32 % 2 ^ 32)
  let title_id_gameid_string := make_gameid_string (e.title_id % 2 ^ 32)
  let title_id_gameid_raw := hex8 (e.title_id % 2 ^ 32)
  let human := title_human_name title_db e
  if pretty then
    natToDec (install_num e.uid) ++ ": ".toList ++ padRight labelStr 19 ++
      title_id_raw ++ "-".toList ++ title_id_gameid_raw ++ " (".toList ++
      title_id_gameid_string ++ ")".toList ++ human
  else
    natToDec (install_num e.uid) ++ ": ".toList ++
      title_id_raw ++ "-".toList ++ title_id_gameid_raw ++ " (".toList ++
      title_id_gameid_string ++ ")".toList ++ human

/-- Models the output of print_entries of src/main.rs (lines 83-147) once
the title database has been resolved: one formatted line per entry, in
order. -/
def print_entries (entries : List Entry) (pretty : Bool)
    (title_db : Option (List Char → Option (List Char))) : List (List Char) :=
  entries.map (fun e => format_line e pretty title_db)

/-- The literal three-character separator of the title database format. -/
def sepChars : List Char := [' ', '=', ' ']

/-- First occurrence split, as the first element of the str::split
iterator of src/main.rs line 65: some (before, after) at the leftmost
occurrence of the separator, none when the line has no separator. -/
def splitFirst : List Char → Option (List Char × List Char)
  | [] => none
  | c :: rest =>
    if (c :: rest).take 3 = sepChars then some ([], rest.drop 2)
    else (splitFirst rest).map (fun p => (c :: p.1, p.2))

/-- Models lines 65-75 of src/main.rs: the first two elements of the
str::split iterator on the separator.  The key is the text before the first
occurrence; the value is the second piece of the split, that is the text
between the first occurrence and the next one (or the rest of the line when
there is only one occurrence).  A line without the separator yields none
(the source returns Error::ReadError). -/
def parseLine (l : List Char) : Option (List Char × List Char) :=
  match splitFirst l with
  | none => none
  | some (t, rest) =>
    some (t, match splitFirst rest with
             | some (h, _) => h
             | none => rest)

/-- Containment of the literal separator in a line, written as a direct
recursive scan. -/
def hasSep : List Char → Bool
  | [] => false
  | c :: rest => ((c :: rest).take 3 = sepChars : Bool) || hasSep rest

/-- Overwriting insertion into a lookup function, as HashMap::insert of
src/main.rs line 77: the new binding shadows any earlier one for the same
key. -/
def mapInsert (m : List Char → Option (List Char)) (k v : List Char) :
    List Char → Option (List Char) :=
  fun x => if x = k then some v else m x

/-- Loop of read_titledb of src/main.rs (lines 63-78) over the lines of the
database file, carrying the map built so far: each line is split, the first
two pieces become key and value, and a line without two pieces aborts the
whole load with an error. -/
def read_titledbGo (lines : List (List Char)) (m : List Char → Option (List Char)) :
    Except Unit (List Char → Option (List Char)) :=
  match lines with
  | [] => .ok m
  | l :: rest =>
    match parseLine l with
    | some (t, h) => read_titledbGo rest (mapInsert m t h)
    | none => .error ()

/-- Models read_titledb of src/main.rs (lines 59-81), abstracting the file
into its list of lines: fold the lines into a lookup map, failing on the
first line without the separator. -/
def read_titledb (lines : List (List Char)) :
    Except Unit (List Char → Option (List Char)) :=
  read_titledbGo lines (fun _ => none)

/-- The value the final map should associate to a key: the value piece of
the last line whose key piece equals that key, none when no line has that
key. -/
def lastValueFor : List (List Char) → List Char → Option (List Char)
  | [], _ => none
  | l :: rest, k =>
    match lastValueFor rest k with
    | some v => some v
    | none =>
      match parseLine l with
      | some (t, h) => if t = k then some h else none
      | none => none

/-- A concrete lookup with a single binding, used to instantiate the
human-name case analysis. -/
def exampleDb : List Char → Option (List Char) :=
  fun k => if k = "ABCD".toList then some "Test Title".toList else none

example : get_entries [0, 0, 0, 1, 0, 0, 0, 2, 0, 0, 0x10, 0] =
    some [⟨0x0000000100000002, 0x1000⟩] := by decide
example : get_entries [0] = none := by decide
example : make_gameid_string 0x41424344 = "ABCD".toList := by decide
example : make_gameid_string 2 = "....".toList := by decide
example : hex8 0x1A2B3C4D = "1A2B3C4D".toList := by decide
example : natToDec 61441 = "61441".toList := by decide
example : install_num 4096 = 1 := by decide
example : install_num 0 = 61441 := by decide
example : parseLine "A = B = C".toList = some ("A".toList, "B".toList) := by decide
example : parseLine "AB".toList = none := by decide
example : hasSep "A = B".toList = true := by decide

lemma get_entries_cons12 (b0 b1 b2 b3 b4 b5 b6 b7 b8 b9 b10 b11 : Nat)
    (rest : List Nat) :
    get_entries (b0 :: b1 :: b2 :: b3 :: b4 :: b5 :: b6 :: b7 :: b8 :: b9 :: b10 :: b11 :: rest) =
      (get_entries rest).map
        (fun es => Entry.ofChunk b0 b1 b2 b3 b4 b5 b6 b7 b8 b9 b10 b11 :: es) := rfl

lemma specDecodedRecords_nil : specDecodedRecords [] = [] := rfl

lemma specDecodedRecords_cons12 (b0 b1 b2 b3 b4 b5 b6 b7 b8 b9 b10 b11 : Nat)
    (rest : List Nat) :
    specDecodedRecords (b0 :: b1 :: b2 :: b3 :: b4 :: b5 :: b6 :: b7 :: b8 :: b9 :: b10 :: b11 :: rest) =
      Entry.ofChunk b0 b1 b2 b3 b4 b5 b6 b7 b8 b9 b10 b11 :: specDecodedRecords rest := by
  unfold specDecodedRecords
  have hlen : (b0 :: b1 :: b2 :: b3 :: b4 :: b5 :: b6 :: b7 :: b8 :: b9 :: b10 :: b11 :: rest).length
      = rest.length + 12 := by simp
  rw [hlen, Nat.add_div_right _ (by norm_num), List.range_succ_eq_map, List.map_cons,
    List.map_map]
  congr 1

/-- C1: the chunk-decoding pass of get_entries_from_file, applied to a buffer
whose length is not a multiple of 12 bytes, panics (the unwrap on the failed
TryInto of the trailing partial chunk), modelled as none: the source does
not return a recoverable MalformedRecordLength error value, it crashes. -/
theorem get_entries_unaligned_panics (bytes : List Nat) :
    bytes.length % 12 ≠ 0 → get_entries bytes = none := by
  induction bytes using get_entries.induct with
  | case1 => intro h; simp at h
  | case2 b0 b1 b2 b3 b4 b5 b6 b7 b8 b9 b10 b11 rest ih =>
    intro h
    have h12 : rest.length % 12 ≠ 0 := by
      intro hc
      apply h
      simp only [List.length_cons]
      omega
    rw [get_entries_cons12, ih h12]
    rfl
  | case3 t h1 h2 =>
    intro _
    rcases t with _ | ⟨b0, _ | ⟨b1, _ | ⟨b2, _ | ⟨b3, _ | ⟨b4, _ | ⟨b5, _ | ⟨b6, _ | ⟨b7, _ | ⟨b8, _ | ⟨b9, _ | ⟨b10, _ | ⟨b11, rest⟩⟩⟩⟩⟩⟩⟩⟩⟩⟩⟩⟩
    all_goals first
      | exact (h1 rfl).elim
      | exact (h2 _ _ _ _ _ _ _ _ _ _ _ _ _ rfl).elim
      | rfl

theorem get_entries_unaligned_panics_witness :
    ([0] : List Nat).length % 12 ≠ 0 ∧ get_entries [0] = none :=
  ⟨by decide, get_entries_unaligned_panics [0] (by decide)⟩

/-- C2: on a buffer whose length is an exact multiple of 12, the decoder
returns exactly length/12 records, in buffer order, record i taking bytes
12i..12i+8 big-endian as title_id and bytes 12i+10..12i+12 big-endian as
install slot (bytes 12i+8..12i+10 ignored), as stated by
specDecodedRecords. -/
theorem get_entries_aligned_decodes (bytes : List Nat) :
    bytes.length % 12 = 0 → get_entries bytes = some (specDecodedRecords bytes) := by
  induction bytes using get_entries.induct with
  | case1 => intro _; rfl
  | case2 b0 b1 b2 b3 b4 b5 b6 b7 b8 b9 b10 b11 rest ih =>
    intro h
    have h12 : rest.length % 12 = 0 := by
      simp only [List.length_cons] at h
      omega
    rw [get_entries_cons12, ih h12, specDecodedRecords_cons12]
    rfl
  | case3 t h1 h2 =>
    intro h
    exfalso
    rcases t with _ | ⟨b0, _ | ⟨b1, _ | ⟨b2, _ | ⟨b3, _ | ⟨b4, _ | ⟨b5, _ | ⟨b6, _ | ⟨b7, _ | ⟨b8, _ | ⟨b9, _ | ⟨b10, _ | ⟨b11, rest⟩⟩⟩⟩⟩⟩⟩⟩⟩⟩⟩⟩
    all_goals first
      | exact h1 rfl
      | exact h2 _ _ _ _ _ _ _ _ _ _ _ _ _ rfl
      | (simp only [List.length_cons, List.length_nil] at h; omega)

theorem get_entries_aligned_decodes_witness :
    ([0, 0, 0, 1, 0, 0, 0, 2, 0, 0, 0x10, 0] : List Nat).length % 12 = 0 ∧
      get_entries [0, 0, 0, 1, 0, 0, 0, 2, 0, 0, 0x10, 0] =
        some (specDecodedRecords [0, 0, 0, 1, 0, 0, 0, 2, 0, 0, 0x10, 0]) :=
  ⟨by decide, get_entries_aligned_decodes _ (by decide)⟩

/-- C7: encoding a pair as 12 bytes (8-byte big-endian identifier, two zero
padding bytes, 2-byte big-endian slot) and decoding the chunk returns the
original pair. -/
theorem encode12_roundtrip (tid slot : Nat) (h1 : tid < 2 ^ 64) (h2 : slot < 2 ^ 16) :
    get_entries (encode12 tid slot) = some [Entry.mk tid slot] := by
  have htid : beNat [tid / 2 ^ 56 % 256, tid / 2 ^ 48 % 256, tid / 2 ^ 40 % 256,
      tid / 2 ^ 32 % 256, tid / 2 ^ 24 % 256, tid / 2 ^ 16 % 256,
      tid / 2 ^ 8 % 256, tid % 256] = tid := by
    simp only [beNat, List.foldl]
    norm_num
    omega
  have hslot : beNat [slot / 2 ^ 8 % 256, slot % 256] = slot := by
    simp only [beNat, List.foldl]
    norm_num
    omega
  simp only [encode12, get_entries_cons12, get_entries, Entry.ofChunk, htid, hslot,
    Option.map_some]
  rfl

theorem encode12_roundtrip_witness :
    0x0000000100000002 < 2 ^ 64 ∧ 0x1000 < 2 ^ 16 ∧
      get_entries (encode12 0x0000000100000002 0x1000) =
        some [Entry.mk 0x0000000100000002 0x1000] :=
  ⟨by decide, by decide, encode12_roundtrip _ _ (by decide) (by decide)⟩

/-- C3 counterexample: at install slot 0 the printed install number is the
wrapped u16 value 61441, rendered as the digits 61441, and it is not the
signed value -4095 the claim promises. -/
theorem install_num_not_signed_at_zero :
    install_num 0 = 61441 ∧ natToDec (install_num 0) = "61441".toList ∧
      ¬((install_num 0 : Int) = (0 : Int) - 4095) := by decide

/-- C3 amended: the displayed install number is the u16 wrapping subtraction
uid - 4095; for slots at or above 4095 it equals the claimed difference, and
for slots below 4095 it is the wrapped value uid + 61441, a large positive
number rather than a negative one. -/
theorem install_num_wraps (uid : Nat) (h : uid < 2 ^ 16) :
    (4095 ≤ uid → install_num uid = uid - 4095) ∧
      (uid < 4095 → install_num uid = uid + 61441) := by
  unfold install_num
  constructor <;> intro h2 <;> omega

theorem install_num_wraps_witness :
    install_num 4096 = 4096 - 4095 ∧ install_num 0 = 0 + 61441 :=
  ⟨(install_num_wraps 4096 (by decide)).1 (by decide),
   (install_num_wraps 0 (by decide)).2 (by decide)⟩

/-- C5: the derived code string of a title identifier is exactly the four
big-endian bytes of its low 32 bits, in order, each rendered as its ASCII
character when its value lies in [32, 128) and as a dot otherwise; in
particular the string always has length 4. -/
theorem make_gameid_string_spec (tid : Nat) :
    make_gameid_string (tid % 2 ^ 32) =
      [renderByte (tid % 2 ^ 32 / 2 ^ 24 % 256), renderByte (tid % 2 ^ 32 / 2 ^ 16 % 256),
       renderByte (tid % 2 ^ 32 / 2 ^ 8 % 256), renderByte (tid % 2 ^ 32 % 256)] ∧
      (make_gameid_string (tid % 2 ^ 32)).length = 4 :=
  ⟨rfl, rfl⟩

/-- C6: the category-label table is total: each of the ten listed codes maps
to its listed label, and every other 32-bit value maps to the Error label. -/
theorem categoryLabel_total :
    categoryLabel 0x00000001 = "SYSTEM ESSENTIAL".toList ∧
    categoryLabel 0x00000007 = "vWII ESSENTIAL".toList ∧
    categoryLabel 0x00010000 = "DISC-BASED GAME".toList ∧
    categoryLabel 0x00010001 = "DOWNLOADED CHANNEL".toList ∧
    categoryLabel 0x00010002 = "SYSTEM CHANNEL".toList ∧
    categoryLabel 0x00070002 = "vWII SYSTEM CHANNEL".toList ∧
    categoryLabel 0x00010004 = "GAME CHANNEL".toList ∧
    categoryLabel 0x00010005 = "GAME DLC".toList ∧
    categoryLabel 0x00010008 = "HIDDEN CHANNEL".toList ∧
    categoryLabel 0x00070008 = "vWII HIDDEN".toList ∧
    (∀ p : Nat, p < 2 ^ 32 →
      p ∉ ([0x00000001, 0x00000007, 0x00010000, 0x00010001, 0x00010002, 0x00070002,
            0x00010004, 0x00010005, 0x00010008, 0x00070008] : List Nat) →
      categoryLabel p = "Error".toList) := by
  refine ⟨rfl, rfl, rfl, rfl, rfl, rfl, rfl, rfl, rfl, rfl, ?_⟩
  intro p _ hmem
  simp only [List.mem_cons, List.not_mem_nil, or_false] at hmem
  push_neg at hmem
  obtain ⟨h1, h2, h3, h4, h5, h6, h7, h8, h9, h10⟩ := hmem
  simp only [categoryLabel, if_neg h1, if_neg h2, if_neg h3, if_neg h4, if_neg h5,
    if_neg h6, if_neg h7, if_neg h8, if_neg h9, if_neg h10]

theorem categoryLabel_total_witness :
    categoryLabel 0x00000002 = "Error".toList :=
  categoryLabel_total.2.2.2.2.2.2.2.2.2.2 0x00000002 (by decide) (by decide)

/-- C4: the human-name suffix follows exactly this case order: a supplied
lookup containing the code string of the record wins and gives the stored
name; with no lookup the suffix is empty; otherwise a low-32-bit value
below 255 gives the IOS suffix with the value in decimal; otherwise the
four-question-mark suffix. -/
theorem title_human_name_cases :
    (∀ (db : List Char → Option (List Char)) (e : Entry) (s : List Char),
        db (make_gameid_string (e.title_id % 2 ^ 32)) = some s →
        title_human_name (some db) e = " - ".toList ++ s) ∧
    (∀ e : Entry, title_human_name none e = []) ∧
    (∀ (db : List Char → Option (List Char)) (e : Entry),
        db (make_gameid_string (e.title_id % 2 ^ 32)) = none →
        e.title_id % 2 ^ 32 < 255 →
        title_human_name (some db) e = " - IOS ".toList ++ natToDec (e.title_id % 2 ^ 32)) ∧
    (∀ (db : List Char → Option (List Char)) (e : Entry),
        db (make_gameid_string (e.title_id % 2 ^ 32)) = none →
        255 ≤ e.title_id % 2 ^ 32 →
        title_human_name (some db) e = " - ????".toList) := by
  refine ⟨fun db e s h => ?_, fun e => rfl, fun db e h h2 => ?_, fun db e h h2 => ?_⟩
  · simp only [title_human_name, h]
  · simp only [title_human_name, h, if_pos h2]
  · simp only [title_human_name, h, if_neg (by omega : ¬e.title_id % 2 ^ 32 < 255)]

theorem title_human_name_cases_witness :
    title_human_name (some exampleDb) ⟨0x41424344, 0⟩ = " - ".toList ++ "Test Title".toList ∧
    title_human_name none ⟨2, 0⟩ = [] ∧
    title_human_name (some exampleDb) ⟨2, 0⟩ = " - IOS ".toList ++ natToDec 2 ∧
    title_human_name (some exampleDb) ⟨0x44454647, 0⟩ = " - ????".toList :=
  ⟨title_human_name_cases.1 exampleDb ⟨0x41424344, 0⟩ ("Test Title".toList) (by decide),
   title_human_name_cases.2.1 ⟨2, 0⟩,
   title_human_name_cases.2.2.1 exampleDb ⟨2, 0⟩ (by decide) (by decide),
   title_human_name_cases.2.2.2 exampleDb ⟨0x44454647, 0⟩ (by decide) (by decide)⟩

lemma categoryLabel_length_le (p : Nat) : (categoryLabel p).length ≤ 19 := by
  unfold categoryLabel
  split_ifs <;> decide

/-- C9: under the pretty flag the formatted line is the install number, a
colon and a space, the category label space-padded to width 19, the two hex
halves (each eight uppercase zero-padded hex digits) joined by a dash, the
code string in parentheses and the human-name suffix; without the flag it is
the same line with the label block omitted. -/
theorem format_line_spec (e : Entry) (db : Option (List Char → Option (List Char))) :
    format_line e true db =
      natToDec (install_num e.uid) ++ ": ".toList ++
        padRight (categoryLabel (e.title_id / 2 ^ 32 % 2 ^ 32)) 19 ++
        hex8 (e.title_id / 2 ^ 32 % 2 ^ 32) ++ "-".toList ++ hex8 (e.title_id % 2 ^ 32) ++
        " (".toList ++ make_gameid_string (e.title_id % 2 ^ 32) ++ ")".toList ++
        title_human_name db e ∧
    format_line e false db =
      natToDec (install_num e.uid) ++ ": ".toList ++
        hex8 (e.title_id / 2 ^ 32 % 2 ^ 32) ++ "-".toList ++ hex8 (e.title_id % 2 ^ 32) ++
        " (".toList ++ make_gameid_string (e.title_id % 2 ^ 32) ++ ")".toList ++
        title_human_name db e ∧
    (hex8 (e.title_id / 2 ^ 32 % 2 ^ 32)).length = 8 ∧
    (hex8 (e.title_id % 2 ^ 32)).length = 8 ∧
    (padRight (categoryLabel (e.title_id / 2 ^ 32 % 2 ^ 32)) 19).length = 19 := by
  refine ⟨rfl, rfl, rfl, rfl, ?_⟩
  have := categoryLabel_length_le (e.title_id / 2 ^ 32 % 2 ^ 32)
  simp only [padRight, List.length_append, List.length_replicate]
  omega

lemma splitFirst_isSome_iff (l : List Char) : (splitFirst l).isSome = hasSep l := by
  induction l with
  | nil => rfl
  | cons c rest ih =>
    by_cases h : (c :: rest).take 3 = sepChars
    · simp only [splitFirst, hasSep]
      rw [if_pos h]
      simp [h]
    · simp only [splitFirst, hasSep]
      rw [if_neg h]
      have hd : decide ((c :: rest).take 3 = sepChars) = false := by
        simpa using h
      rw [hd, Bool.false_or, ← ih]
      cases splitFirst rest <;> rfl

lemma parseLine_isSome_iff (l : List Char) : (parseLine l).isSome = hasSep l := by
  rw [← splitFirst_isSome_iff]
  unfold parseLine
  cases splitFirst l with
  | none => rfl
  | some p => cases p; rfl

lemma read_titledbGo_ok_iff (lines : List (List Char)) :
    ∀ m, (∃ m', read_titledbGo lines m = .ok m') ↔ ∀ l ∈ lines, hasSep l = true := by
  induction lines with
  | nil =>
    intro m
    constructor
    · intro _ l hl
      simp at hl
    · intro _
      exact ⟨m, rfl⟩
  | cons l rest ih =>
    intro m
    simp only [read_titledbGo]
    cases hp : parseLine l with
    | none =>
      constructor
      · rintro ⟨m', hm'⟩
        simp at hm'
      · intro hall
        have h1 : hasSep l = true := hall l (by simp)
        rw [← parseLine_isSome_iff, hp] at h1
        simp at h1
    | some p =>
      obtain ⟨t, hv⟩ := p
      constructor
      · rintro ⟨m', hm'⟩ l' hl'
        rcases List.mem_cons.mp hl' with h1 | h2
        · subst h1
          rw [← parseLine_isSome_iff, hp]
          rfl
        · exact ((ih (mapInsert m t hv)).mp ⟨m', hm'⟩) l' h2
      · intro hall
        exact (ih (mapInsert m t hv)).mpr
          (fun l' hl' => hall l' (List.mem_cons_of_mem _ hl'))

lemma read_titledbGo_lookup (lines : List (List Char)) :
    ∀ m m', read_titledbGo lines m = .ok m' → ∀ k,
      m' k = match lastValueFor lines k with
             | some v => some v
             | none => m k := by
  induction lines with
  | nil =>
    intro m m' h k
    injection h with h
    subst h
    rfl
  | cons l rest ih =>
    intro m m' h k
    simp only [read_titledbGo] at h
    cases hp : parseLine l with
    | none =>
      rw [hp] at h
      simp at h
    | some p =>
      obtain ⟨t, hv⟩ := p
      rw [hp] at h
      rw [ih _ _ h k]
      simp only [lastValueFor, hp]
      cases hl : lastValueFor rest k with
      | some v => rfl
      | none =>
        simp only [mapInsert]
        by_cases hk : k = t
        · subst hk
          simp
        · rw [if_neg hk, if_neg (fun hc => hk hc.symm)]

lemma lastValueFor_append (xs ys : List (List Char)) (k : List Char) :
    lastValueFor (xs ++ ys) k =
      match lastValueFor ys k with
      | some v => some v
      | none => lastValueFor xs k := by
  induction xs with
  | nil =>
    simp only [List.nil_append]
    cases lastValueFor ys k <;> rfl
  | cons l rest ih =>
    simp only [List.cons_append, lastValueFor, List.append_eq, ih]
    cases lastValueFor ys k <;> cases lastValueFor rest k <;> rfl

lemma lastValueFor_eq_none (post : List (List Char)) (k : List Char)
    (h : ∀ l ∈ post, ∀ p, parseLine l = some p → p.1 ≠ k) :
    lastValueFor post k = none := by
  induction post with
  | nil => rfl
  | cons l rest ih =>
    have hrest : lastValueFor rest k = none :=
      ih (fun l2 hl2 => h l2 (List.mem_cons_of_mem _ hl2))
    simp only [lastValueFor, hrest]
    cases hp : parseLine l with
    | none => rfl
    | some p =>
      obtain ⟨t, v⟩ := p
      have ht : t ≠ k := h l (List.mem_cons_self _ _) (t, v) hp
      exact if_neg ht

/-- C8 (amended): loading the title database succeeds exactly when every
line contains the literal separator (a line without it fails the whole
load), and on success each key maps to the value of the last line carrying
it, where the key of a line is the text before its first separator and the
value is the second piece of the split — the text between the first
separator and the next occurrence, which is the full remaining text only
when the line contains a single separator. -/
theorem read_titledb_spec (lines : List (List Char)) :
    ((∃ m, read_titledb lines = .ok m) ↔ ∀ l ∈ lines, hasSep l = true) ∧
    (∀ m, read_titledb lines = .ok m → ∀ k, m k = lastValueFor lines k) := by
  constructor
  · exact read_titledbGo_ok_iff lines _
  · intro m h k
    rw [read_titledbGo_lookup lines _ _ h k]
    cases lastValueFor lines k <;> rfl

theorem read_titledb_spec_witness :
    (mapInsert (fun _ => none) "AAAA".toList "Name1".toList) "AAAA".toList =
      lastValueFor ["AAAA = Name1".toList] "AAAA".toList :=
  (read_titledb_spec ["AAAA = Name1".toList]).2 _ rfl ("AAAA".toList)

/-- C8 counterexample: on the single line A = B = C the load succeeds and
maps the key A to B, the piece between the first and the second separator,
not to the full text B = C after the first separator, refuting the claim
that the whole display text after the first separator becomes the value. -/
theorem read_titledb_value_not_full_suffix :
    read_titledb ["A = B = C".toList] =
      .ok (mapInsert (fun _ => none) "A".toList "B".toList) ∧
    (mapInsert (fun _ => none) "A".toList "B".toList) "A".toList = some "B".toList ∧
    some ("B".toList) ≠ some ("B = C".toList) :=
  ⟨rfl, by decide, by decide⟩

/-- C10: when several separator-carrying lines share a key, the loaded
lookup maps that key to the value of the last such line — later lines
silently overwrite earlier ones — and duplicate keys never make the load
fail. -/
theorem read_titledb_last_wins (pre post : List (List Char)) (l0 k v : List Char)
    (hl : parseLine l0 = some (k, v))
    (hpost : ∀ l ∈ post, ∀ p, parseLine l = some p → p.1 ≠ k)
    (hall : ∀ l ∈ pre ++ l0 :: post, hasSep l = true) :
    ∃ m, read_titledb (pre ++ l0 :: post) = .ok m ∧ m k = some v := by
  obtain ⟨m, hm⟩ := ((read_titledb_spec (pre ++ l0 :: post)).1).mpr hall
  refine ⟨m, hm, ?_⟩
  rw [(read_titledb_spec (pre ++ l0 :: post)).2 m hm k, lastValueFor_append]
  have hpost2 : lastValueFor post k = none := lastValueFor_eq_none post k hpost
  simp only [lastValueFor, hpost2, hl]
  simp

theorem read_titledb_last_wins_witness :
    ∃ m, read_titledb ["AAAA = First".toList, "AAAA = Second".toList] = .ok m ∧
      m "AAAA".toList = some "Second".toList :=
  read_titledb_last_wins ["AAAA = First".toList] [] "AAAA = Second".toList
    "AAAA".toList "Second".toList (by decide) (by simp) (by decide)
